import Mathlib

/-!
Verification of `sdcm/cql_stress_cassandra_stress_thread.py`
(class `CqlStressCassandraStressThread`).

The development shallowly embeds the two cores of that file:

* `create_stress_cmd` (lines 41-97): the cassandra-stress → cql-stress
  dialect translation.  Command strings are modelled as `List Char`;
  Python `str.replace` and the four `re.sub` calls are modelled as
  executable scanners over the character list.
* `_run_cs_stress` (lines 99-158): the per-invocation orchestration,
  modelled as a control-flow skeleton producing a trace of the
  externally visible steps and the Python-level outcome.

All definitions are executable (fuel-based structural recursion), so
every concrete scenario can be settled by evaluation inside the kernel.
-/

namespace CqlStress

/-- Command strings are lists of characters. -/
abbrev Str := List Char

/-- The ASCII apostrophe (written numerically). -/
def qc : Char := Char.ofNat 39

/-- Python `needle in s` on strings: `needle` occurs as a contiguous
substring of `s`. -/
def occursIn (needle : Str) : Str → Bool
  | [] => needle.isPrefixOf ([] : Str)
  | c :: cs => needle.isPrefixOf (c :: cs) || occursIn needle cs

/-- Fuelled worker for `replaceAll`.  The fuel only serves to make the
recursion structural; `replaceAll` always supplies enough. -/
def replaceAllF (needle rep : Str) : Nat → Str → Str
  | 0, s => s
  | _ + 1, [] => []
  | fuel + 1, c :: cs =>
    if needle.isPrefixOf (c :: cs) then
      rep ++ replaceAllF needle rep fuel ((c :: cs).drop needle.length)
    else
      c :: replaceAllF needle rep fuel cs

/-- Python `s.replace(needle, rep)`: replace every non-overlapping
occurrence, scanning left to right and continuing after each
replacement. -/
def replaceAll (needle rep s : Str) : Str :=
  replaceAllF needle rep s.length s

/-- Python regex `\s` (ASCII range; the stress commands handled by the
source are ASCII). -/
def isSpaceChar (c : Char) : Bool :=
  c = ' ' || c = '\t' || c = '\n' || c = '\r' || c = '\x0b' || c = '\x0c'

/-- Python regex `\w` (ASCII range). -/
def isWordChar (c : Char) : Bool :=
  c.isAlphanum || c = '_'

/-- `re.IGNORECASE` matching of one cased pattern letter: the subject
character `c` matches the pattern letter with lowercase form `l` and
uppercase form `u` exactly when it is one of the two (ASCII scope; the
stress commands handled by the source are ASCII). -/
def ciChar (l u c : Char) : Bool := c = l || c = u

/-! ## Rule 1: no-warmup insertion (source lines 44-47)

`re.sub(r'(cql-stress-cassandra-stress [\w]+)', r'\1 no-warmup', cmd)`,
guarded by `"no-warmup" not in stress_cmd`. -/

/-- Literal head of the warmup pattern: the tool name and the following
space. -/
def csLit : Str := "cql-stress-cassandra-stress ".data

/-- Try to match `cql-stress-cassandra-stress [\w]+` at the head of `s`;
on success return the length of the match. -/
def parseWarmupAt (s : Str) : Option Nat :=
  if csLit.isPrefixOf s then
    let w := (s.drop csLit.length).takeWhile isWordChar
    if w.isEmpty then none else some (csLit.length + w.length)
  else none

/-- Fuelled scanner for the warmup substitution. -/
def warmupSubF : Nat → Str → Str
  | 0, s => s
  | _ + 1, [] => []
  | fuel + 1, c :: cs =>
    match parseWarmupAt (c :: cs) with
    | some k => (c :: cs).take k ++ " no-warmup".data ++ warmupSubF fuel ((c :: cs).drop k)
    | none => c :: warmupSubF fuel cs

/-- The warmup `re.sub` of line 46. -/
def warmupSub (s : Str) : Str := warmupSubF s.length s

/-- Lines 44-47: insert `no-warmup` unless already present. -/
def warmupStep (s : Str) : Str :=
  if occursIn "no-warmup".data s then s else warmupSub s

/-! ## Rule 2: keyspace injection (source lines 49-54) -/

/-- The ` -schema ` token replaced by the schema-clause injections. -/
def schemaTok : Str := " -schema ".data

/-- Decimal digits of a natural number, for `"keyspace{}".format(keyspace_idx)`. -/
def natStr (n : Nat) : Str := Nat.toDigits 10 n

/-- Lines 49-54: if an explicit keyspace name is configured
(`if self.keyspace_name:`), inject it into the schema clause; otherwise
(`elif 'keyspace=' not in stress_cmd:`) inject the index-derived
default; otherwise leave the command alone. -/
def keyspaceStep (name : Str) (keyspace_idx : Nat) (s : Str) : Str :=
  if name ≠ [] then
    replaceAll schemaTok (" -schema keyspace=".data ++ name ++ " ".data) s
  else if occursIn "keyspace=".data s then s
  else
    replaceAll schemaTok (" -schema keyspace=keyspace".data ++ natStr keyspace_idx ++ " ".data) s

/-! ## Rule 3: compaction strategy injection (source lines 56-58) -/

/-- Lines 56-58: `if self.compaction_strategy and "compaction(" not in
stress_cmd:` replace ` -schema ` with
` -schema 'compaction(strategy=<cs>)' `. -/
def compactionStep (strategy : Str) (s : Str) : Str :=
  if strategy ≠ [] ∧ occursIn "compaction(".data s = false then
    replaceAll schemaTok
      (" -schema ".data ++ (qc :: "compaction(strategy=".data) ++ strategy ++ (')' :: qc :: " ".data)) s
  else s

/-! ## Rule 4: column count rewrite (source lines 60-67)

`re.sub(r' (\'?)n=[\s]*fixed\(([0-9]+)\)(\'?)', r' \1n=\2\3', cmd,
flags=re.IGNORECASE)`, guarded by `'-col' in stress_cmd`. -/

/-- `if b then [apostrophe] else []`: the optionally captured quote. -/
def qs (b : Bool) : Str := if b then [qc] else []

/-- Try to match `fixed\(` case-insensitively at the head of `r2`; on
success return the remainder. -/
def ciFixedParen : Str → Option Str
  | f1 :: f2 :: f3 :: f4 :: f5 :: f6 :: r3 =>
    if ciChar 'f' 'F' f1 = true ∧ ciChar 'i' 'I' f2 = true ∧ ciChar 'x' 'X' f3 = true ∧
       ciChar 'e' 'E' f4 = true ∧ ciChar 'd' 'D' f5 = true ∧ f6 = '(' then some r3
    else none
  | _ => none

/-- Try to match `n=[\s]*fixed\(([0-9]+)\)(\'?)` (the part of the
column-count pattern after the optional opening quote, case-insensitive)
at the head of `r0`.  On success return the digits, the trailing-quote
flag, and the number of characters of `r0` consumed. -/
def parseColCore (r0 : Str) : Option (Str × Bool × Nat) :=
  match r0 with
  | a :: b :: r1 =>
    if ciChar 'n' 'N' a = true ∧ b = '=' then
      let ws := r1.takeWhile isSpaceChar
      match ciFixedParen (r1.dropWhile isSpaceChar) with
      | some r3 =>
        let ds := r3.takeWhile Char.isDigit
        match r3.dropWhile Char.isDigit with
        | cp :: r5 =>
          if ds.isEmpty = false ∧ cp = ')' then
            match r5 with
            | c2 :: _ =>
              if c2 = qc then some (ds, true, 2 + ws.length + 6 + ds.length + 2)
              else some (ds, false, 2 + ws.length + 6 + ds.length + 1)
            | [] => some (ds, false, 2 + ws.length + 6 + ds.length + 1)
          else none
        | [] => none
      | none => none
    else none
  | _ => none

/-- Try to match `(\'?)n=[\s]*fixed\(([0-9]+)\)(\'?)` (case-insensitive)
at the head of `cs` (the part of the command after the leading space of
the pattern).  On success return the two quote flags, the digits, and
the number of characters of `cs` consumed. -/
def parseColTail (cs : Str) : Option (Bool × Str × Bool × Nat) :=
  match cs with
  | c :: rest =>
    if c = qc then (parseColCore rest).map (fun p => (true, p.1, p.2.1, p.2.2 + 1))
    else (parseColCore cs).map (fun p => (false, p.1, p.2.1, p.2.2))
  | [] => none

/-- Fuelled scanner for the column-count substitution. -/
def colSubF : Nat → Str → Str
  | 0, s => s
  | _ + 1, [] => []
  | fuel + 1, c :: cs =>
    match (if c = ' ' then parseColTail cs else none) with
    | some (q1, ds, q2, k) =>
      (' ' :: qs q1 ++ "n=".data ++ ds ++ qs q2) ++ colSubF fuel (cs.drop k)
    | none => c :: colSubF fuel cs

/-- The column-count `re.sub` of line 65. -/
def colSub (s : Str) : Str := colSubF s.length s

/-- Lines 60-67: the rewrite fires only when `'-col'` occurs in the
command. -/
def colStep (s : Str) : Str :=
  if occursIn "-col".data s then colSub s else s

/-! ## Rule 5: rate flag rewrite (source lines 69-74)

`re.sub(r' fixed=[\s]*([0-9]+/s)', r' throttle=\1 fixed', cmd)`,
guarded by `'-rate' in stress_cmd`. -/

/-- Try to match `fixed=[\s]*[0-9]+/s` at the head of `cs` (the part
after the leading space of the pattern); on success return the digits
and the number of characters consumed. -/
def parseRateTail (cs : Str) : Option (Str × Nat) :=
  if "fixed=".data.isPrefixOf cs then
    let r1 := cs.drop 6
    let ws := r1.takeWhile isSpaceChar
    let r2 := r1.dropWhile isSpaceChar
    let ds := r2.takeWhile Char.isDigit
    let r3 := r2.dropWhile Char.isDigit
    if ds.isEmpty then none
    else if "/s".data.isPrefixOf r3 then some (ds, 6 + ws.length + ds.length + 2)
    else none
  else none

/-- Fuelled scanner for the rate substitution. -/
def rateSubF : Nat → Str → Str
  | 0, s => s
  | _ + 1, [] => []
  | fuel + 1, c :: cs =>
    match (if c = ' ' then parseRateTail cs else none) with
    | some (ds, k) =>
      (" throttle=".data ++ ds ++ "/s fixed".data) ++ rateSubF fuel (cs.drop k)
    | none => c :: rateSubF fuel cs

/-- The rate `re.sub` of line 73. -/
def rateSub (s : Str) : Str := rateSubF s.length s

/-- Lines 69-74: the rewrite fires only when `'-rate'` occurs in the
command. -/
def rateStep (s : Str) : Str :=
  if occursIn "-rate".data s then rateSub s else s

/-! ## Rule 6: population sequence rewrite (source lines 76-80)

`re.sub(r' seq=[\s]*([\d]+\.\.[\d]+)', r" 'dist=SEQ(\1)'", cmd)`,
guarded by `'-pop' in stress_cmd`. -/

/-- Try to match `seq=[\s]*[\d]+\.\.[\d]+` at the head of `cs`; on
success return the two digit groups and the number of characters
consumed. -/
def parsePopTail (cs : Str) : Option (Str × Str × Nat) :=
  if "seq=".data.isPrefixOf cs then
    let r1 := cs.drop 4
    let ws := r1.takeWhile isSpaceChar
    let r2 := r1.dropWhile isSpaceChar
    let d1 := r2.takeWhile Char.isDigit
    let r3 := r2.dropWhile Char.isDigit
    if d1.isEmpty then none else
    match r3 with
    | '.' :: '.' :: r4 =>
      let d2 := r4.takeWhile Char.isDigit
      if d2.isEmpty then none
      else some (d1, d2, 4 + ws.length + d1.length + 2 + d2.length)
    | _ => none
  else none

/-- Fuelled scanner for the population substitution. -/
def popSubF : Nat → Str → Str
  | 0, s => s
  | _ + 1, [] => []
  | fuel + 1, c :: cs =>
    match (if c = ' ' then parsePopTail cs else none) with
    | some (d1, d2, k) =>
      (' ' :: qc :: "dist=SEQ(".data ++ d1 ++ "..".data ++ d2 ++ [')', qc]) ++
        popSubF fuel (cs.drop k)
    | none => c :: popSubF fuel cs

/-- The population `re.sub` of line 79. -/
def popSub (s : Str) : Str := popSubF s.length s

/-- Lines 76-80: the rewrite fires only when `'-pop'` occurs in the
command. -/
def popStep (s : Str) : Str :=
  if occursIn "-pop".data s then popSub s else s

/-! ## Rule 7: node list injection (source lines 82-96) -/

/-- Configuration of a `CqlStressCassandraStressThread` instance as far
as `create_stress_cmd` consults it.  `dcForLoaderRegion` models the
value of `datacenter_name_per_region.get(loader.region)` obtained from
the topology-lookup collaborator (`get_datacenter_name_per_region`),
which is external to this file. -/
structure StressConfig where
  keyspace_name : Str
  compaction_strategy : Str
  node_ips : List Str
  multiRegion : Bool
  dcForLoaderRegion : Option Str
  deriving DecidableEq, Repr

/-- `",".join(node_ip_list)`. -/
def joinComma : List Str → Str
  | [] => []
  | [x] => x
  | x :: xs => x ++ ',' :: joinComma xs

/-- Lines 82-96: `if self.node_list and '-node' not in stress_cmd:`
append ` -node `, then in the multi-region case append
`datacenter=<dc> ` when the lookup produced a (truthy) name, and
finally append the comma-joined node addresses. -/
def nodeStep (cfg : StressConfig) (s : Str) : Str :=
  if cfg.node_ips ≠ [] ∧ occursIn "-node".data s = false then
    let s1 := s ++ " -node ".data
    let s2 :=
      if cfg.multiRegion then
        match cfg.dcForLoaderRegion with
        | some dc => if dc ≠ [] then s1 ++ "datacenter=".data ++ dc ++ " ".data else s1
        | none => s1
      else s1
    s2 ++ joinComma cfg.node_ips
  else s

/-- `create_stress_cmd` (source lines 41-97): the full translation
pipeline, applied in the source's order.  The `cmd_runner` parameter of
the Python method is unused by its body and omitted. -/
def create_stress_cmd (cfg : StressConfig) (keyspace_idx : Nat) (stress_cmd : Str) : Str :=
  nodeStep cfg
    (popStep (rateStep (colStep
      (compactionStep cfg.compaction_strategy
        (keyspaceStep cfg.keyspace_name keyspace_idx
          (warmupStep stress_cmd))))))

/-! ## Effect accounting for the translation

The only effect statement in `create_stress_cmd` is the
`LOGGER.error(...)` call of lines 94-95, reached when the multi-region
datacenter lookup yields no (truthy) name.  The log sink is an external
collaborator; `create_stress_cmd_io` threads its state explicitly so
that the absence of any other effect, and the independence of the
returned command from the sink's state, are provable. -/

/-- The message of the `LOGGER.error` call of lines 94-95. -/
def dcErrorLine : Str := "Not found datacenter for loader region".data

/-- Lines 82-96 with the log sink threaded as explicit state. -/
def nodeStepEff (cfg : StressConfig) (s : Str) (log : List Str) : Str × List Str :=
  if cfg.node_ips ≠ [] ∧ occursIn "-node".data s = false then
    let s1 := s ++ " -node ".data
    let p :=
      if cfg.multiRegion then
        match cfg.dcForLoaderRegion with
        | some dc =>
          if dc ≠ [] then (s1 ++ "datacenter=".data ++ dc ++ " ".data, log)
          else (s1, log ++ [dcErrorLine])
        | none => (s1, log ++ [dcErrorLine])
      else (s1, log)
    (p.1 ++ joinComma cfg.node_ips, p.2)
  else (s, log)

/-- `create_stress_cmd` with the log sink threaded as explicit state:
returns the translated command together with the final sink state. -/
def create_stress_cmd_io (cfg : StressConfig) (keyspace_idx : Nat) (stress_cmd : Str)
    (log : List Str) : Str × List Str :=
  nodeStepEff cfg
    (popStep (rateStep (colStep
      (compactionStep cfg.compaction_strategy
        (keyspaceStep cfg.keyspace_name keyspace_idx
          (warmupStep stress_cmd)))))) log

/-! ## The timeout policy (source lines 148-153) -/

/-- Line 149: `hard_timeout = self.timeout + int(self.timeout * 0.05)`.

`int()` truncates.  For every `timeout < 2^54` the IEEE-754 double
product `timeout * 0.05` (where the double nearest to 0.05 exceeds 1/20
by about 2.8e-18 relatively) truncates to exactly `⌊timeout/20⌋ =
timeout * 5 / 100`, so the natural-number expression below is the value
computed by line 149 for every realistic timeout. -/
def hard_timeout (timeout : Nat) : Nat := timeout + timeout * 5 / 100

/-- The value `⌈0.05 * t⌉ = ⌈t/20⌉` named by the specification's hard
timeout formula. -/
def ceilFivePercent (t : Nat) : Nat := (t + 19) / 20

/-! ## The orchestrator `_run_cs_stress` (source lines 99-158)

The remote-container collaborator `RemoteDocker` is not part of this
file.  Modelled from the spec: the execution-context provisioner
acquires the remote container at `acquire` — in the source, the
`RemoteDocker(loader, ...)` constructor call of line 123, which receives
every acquire parameter (node, image, cpu affinity, marker) and starts
the long-lived idle process — and releases it when the scoped
`with cleanup_context` block exits ("Release must run exactly once per
acquire, on every exit path ... guaranteed via scoped-resource
semantics").

The model records the externally visible steps of one invocation as a
trace, and the Python-level outcome of the call.  Two Booleans select
the failure scenarios the claims speak about: `translateRaises` (the
`create_stress_cmd` call of line 129 raises, e.g. because the
multi-region topology lookup of line 88 fails) and `runRaises` (the
`cmd_runner.run` call of line 151 raises an `Exception`, e.g. a
transport error or the hard timeout). -/

/-- Externally visible steps of one `_run_cs_stress` invocation. -/
inductive Ev where
  /-- line 123: `RemoteDocker(...)` — the container is acquired. -/
  | provision
  /-- line 129: `create_stress_cmd(...)` completes. -/
  | translate
  /-- line 151: `cmd_runner.run(...)` is invoked. -/
  | run
  /-- lines 155-156: the `except` handler converts the exception into a
  failure event (`configure_event_on_failure`). -/
  | reportFailure
  /-- lines 140-147 `with` exit: the stress event and the metrics
  exporter are finalized. -/
  | report
  /-- lines 140-147 `with` exit: `cleanup_context.__exit__` releases the
  container. -/
  | release
  deriving DecidableEq, Repr

/-- Python-level outcome of the `_run_cs_stress` call. -/
inductive PyOutcome where
  /-- the `return loader, result, cs_stress_event` of line 158 returns a
  three-element tuple. -/
  | returned
  /-- the exception raised by `create_stress_cmd` propagates out of the
  method (it is raised before the `try` of line 148). -/
  | raisedFromTranslate
  /-- the `return` statement of line 158 reads the local `result`, which
  was never assigned because line 151 raised, and raises
  `UnboundLocalError`, which propagates out of the method. -/
  | raisedUnboundLocal
  deriving DecidableEq, Repr

/-- Trace and outcome of one invocation. -/
structure InvocationResult where
  trace : List Ev
  outcome : PyOutcome
  deriving DecidableEq, Repr

/-- Control-flow model of `_run_cs_stress` (lines 99-158), step by step:

1. line 123: `cmd_runner = cleanup_context = RemoteDocker(...)` — the
   container is provisioned (`Ev.provision`).
2. line 129: `stress_cmd = self.create_stress_cmd(...)` — *before* the
   `with cleanup_context` block of line 140 is entered.  If it raises,
   the `with` block is never entered, so no release happens and the
   exception propagates.
3. lines 140-153: the `with` block; inside it the `try` of line 148 runs
   the command.  The local `result` is assigned only by line 151.
4. lines 154-156: an `Exception` from the run is caught and converted to
   a failure event; `result` stays unassigned.
5. `with` exit: events finalized, container released.
6. line 158: `return loader, result, cs_stress_event` — raises
   `UnboundLocalError` when `result` was never assigned. -/
def runCsStress (translateRaises runRaises : Bool) : InvocationResult := Id.run do
  let mut trace : List Ev := []
  trace := trace ++ [Ev.provision]
  if translateRaises then
    return { trace := trace, outcome := PyOutcome.raisedFromTranslate }
  trace := trace ++ [Ev.translate]
  let mut result : Option Unit := none
  trace := trace ++ [Ev.run]
  if runRaises then
    trace := trace ++ [Ev.reportFailure]
  else
    result := some ()
  trace := trace ++ [Ev.report, Ev.release]
  match result with
  | some _ => return { trace := trace, outcome := PyOutcome.returned }
  | none => return { trace := trace, outcome := PyOutcome.raisedUnboundLocal }

/-- Index of the first occurrence of a step in a trace (length if
absent). -/
def firstPos (e : Ev) : List Ev → Nat
  | [] => 0
  | x :: xs => if x = e then 0 else firstPos e xs + 1

/-! ## Declarative characterisations of the two rewrites the claims
quantify over

`RateRW s t` says that `t` arises from `s` by the left-to-right scan
that rewrites every occurrence of the legacy rate specification
`fixed=<N>/s` (with the pattern's leading space and optional internal
whitespace) into `throttle=<N>/s fixed`, copying every other character.
It is stated by decomposition of the string, independently of the
scanner that implements it. -/

/-- A match of ` fixed=[\s]*([0-9]+/s)` starts at the head of `s`. -/
def RateMatchHead (s : Str) : Prop :=
  ∃ ws ds rest : Str,
    s = " fixed=".data ++ (ws ++ (ds ++ ("/s".data ++ rest))) ∧
    (∀ c ∈ ws, isSpaceChar c = true) ∧ ds ≠ [] ∧ (∀ c ∈ ds, c.isDigit = true)

/-- Left-to-right rewriting of every legacy `fixed=<N>/s` rate
specification into `throttle=<N>/s fixed` (source line 73). -/
inductive RateRW : Str → Str → Prop
  | nil : RateRW [] []
  /-- no match starts here: the character is copied. -/
  | keep (c : Char) (cs t : Str) :
      ¬ RateMatchHead (c :: cs) → RateRW cs t → RateRW (c :: cs) (c :: t)
  /-- a match starts here: ` fixed=<ws><ds>/s` becomes
  ` throttle=<ds>/s fixed` and scanning resumes after the match. -/
  | rw (ws ds rest t : Str) :
      (∀ c ∈ ws, isSpaceChar c = true) → ds ≠ [] → (∀ c ∈ ds, c.isDigit = true) →
      RateRW rest t →
      RateRW (" fixed=".data ++ (ws ++ (ds ++ ("/s".data ++ rest))))
             (" throttle=".data ++ (ds ++ ("/s fixed".data ++ t)))

/-- A match of ` (\'?)n=[\s]*fixed\(([0-9]+)\)(\'?)` (case-insensitive)
starts at the head of `s`.  The final condition reflects the greedy
optional trailing quote: a match with `q2 = false` is only the regex
match when no quote immediately follows. -/
def ColMatchHead (s : Str) : Prop :=
  ∃ (q1 : Bool) (nc f1 f2 f3 f4 f5 : Char) (ws ds : Str) (q2 : Bool) (rest : Str),
    s = ' ' :: (qs q1 ++ (nc :: '=' :: (ws ++
          (f1 :: f2 :: f3 :: f4 :: f5 :: '(' :: (ds ++ (')' :: (qs q2 ++ rest))))))) ∧
    ciChar 'n' 'N' nc = true ∧ (∀ c ∈ ws, isSpaceChar c = true) ∧
    ciChar 'f' 'F' f1 = true ∧ ciChar 'i' 'I' f2 = true ∧ ciChar 'x' 'X' f3 = true ∧
    ciChar 'e' 'E' f4 = true ∧ ciChar 'd' 'D' f5 = true ∧
    ds ≠ [] ∧ (∀ c ∈ ds, c.isDigit = true) ∧
    (q2 = false → ∀ c ∈ rest.take 1, c ≠ qc)

/-- Left-to-right rewriting of every (case-insensitive, optionally
quoted) `n=FIXED(k)` column-count specification into a bare `n=k`
(source line 65). -/
inductive ColRW : Str → Str → Prop
  | nil : ColRW [] []
  /-- no match starts here: the character is copied. -/
  | keep (c : Char) (cs t : Str) :
      ¬ ColMatchHead (c :: cs) → ColRW cs t → ColRW (c :: cs) (c :: t)
  /-- a match starts here: ` <q1>n=<ws>FIXED(<ds>)<q2>` becomes
  ` <q1>n=<ds><q2>` and scanning resumes after the match. -/
  | rw (q1 : Bool) (nc f1 f2 f3 f4 f5 : Char) (ws ds : Str) (q2 : Bool) (rest t : Str) :
      ciChar 'n' 'N' nc = true → (∀ c ∈ ws, isSpaceChar c = true) →
      ciChar 'f' 'F' f1 = true → ciChar 'i' 'I' f2 = true → ciChar 'x' 'X' f3 = true →
      ciChar 'e' 'E' f4 = true → ciChar 'd' 'D' f5 = true →
      ds ≠ [] → (∀ c ∈ ds, c.isDigit = true) →
      (q2 = false → ∀ c ∈ rest.take 1, c ≠ qc) →
      ColRW rest t →
      ColRW (' ' :: (qs q1 ++ (nc :: '=' :: (ws ++
              (f1 :: f2 :: f3 :: f4 :: f5 :: '(' :: (ds ++ (')' :: (qs q2 ++ rest))))))))
            (' ' :: (qs q1 ++ ('n' :: '=' :: (ds ++ (qs q2 ++ t)))))

/-! ## Inspection helpers and concrete scenario data -/

/-- The suffix of `s` after the first occurrence of `needle`, when
`needle` occurs. -/
def afterFirst (needle : Str) : Str → Option Str
  | [] => none
  | c :: cs =>
    if needle.isPrefixOf (c :: cs) then some ((c :: cs).drop needle.length)
    else afterFirst needle cs

/-- The keyspace assignment a translated command presents first inside
its schema clause: the value of the first `keyspace=` assignment after
the first `-schema ` token.  The external stress tool that consumes the
command is outside this file; the claims' "effective keyspace" is read
as the assignment the translation placed ahead of any other. -/
def effectiveKeyspace (s : Str) : Option Str :=
  (afterFirst "-schema ".data s).bind fun r =>
    (afterFirst "keyspace=".data r).map fun r2 => r2.takeWhile (fun c => c ≠ ' ')

/-- A configuration with nothing configured: no explicit keyspace name,
no compaction strategy, no node list. -/
def cfgPlain : StressConfig := ⟨[], [], [], false, none⟩

/-- A configuration with an explicit keyspace name `bar`, a compaction
strategy, and one node. -/
def cfgBar : StressConfig :=
  ⟨"bar".data, "STCS".data, ["10.0.0.1".data], false, none⟩

/-- A command containing every feature named by the idempotence claim;
its translation under `cfgBar` contains no-warmup, an explicit keyspace
assignment, a compaction clause, a rewritten `n=`, a rewritten rate
flag, a rewritten `dist=SEQ`, and an explicit `-node` flag. -/
def idemIn : Str :=
  "cql-stress-cassandra-stress write -schema compaction(strategy=STCS) replication(factor=3) -col n=FIXED(5) -rate fixed=50000/s -pop seq=1..100 -node 10.0.0.1".data

/-- An already-translated command (no explicit keyspace name
configured): every rule's precondition already holds. -/
def idemFix : Str :=
  "cql-stress-cassandra-stress write no-warmup -schema keyspace=bar compaction(strategy=STCS) -col n=5 -rate throttle=50000/s fixed -pop dist=SEQ(1..100) -node 10.0.0.1".data

/-- Input with an existing `keyspace=foo` assignment in the schema
clause. -/
def sFoo : Str :=
  "cql-stress-cassandra-stress write no-warmup -schema keyspace=foo replication(factor=3)".data

/-- `sFoo` after keyspace injection with configured name `bar`. -/
def sFooBar : Str :=
  "cql-stress-cassandra-stress write no-warmup -schema keyspace=bar keyspace=foo replication(factor=3)".data

/-- A command containing the ` n=FIXED(5)` pattern but no `-col` flag. -/
def noColCmd : Str :=
  "cql-stress-cassandra-stress write no-warmup -schema keyspace=k1 -xyz n=FIXED(5)".data

/-- The column-count literal scenario: `-col n=FIXED(5)`. -/
def colScenario : Str :=
  "cql-stress-cassandra-stress write -col n=FIXED(5)".data

/-- The rate literal scenario: `-rate fixed=50000/s`. -/
def rateScenario : Str :=
  "cql-stress-cassandra-stress mixed -rate fixed=50000/s".data

set_option maxRecDepth 100000

/-! # Helper lemmas -/

theorem isPrefixOf_self_append (l r : Str) : l.isPrefixOf (l ++ r) = true := by
  induction l with
  | nil => cases r <;> rfl
  | cons a as ih =>
    show ((a == a) && as.isPrefixOf (as ++ r)) = true
    simp [ih]

theorem eq_append_drop_of_isPrefixOf :
    ∀ {l s : Str}, l.isPrefixOf s = true → s = l ++ s.drop l.length := by
  intro l
  induction l with
  | nil => intro s _; simp
  | cons a as ih =>
    intro s h
    cases s with
    | nil => simp [List.isPrefixOf] at h
    | cons b bs =>
      have h2 : a = b ∧ as.isPrefixOf bs = true := by
        simpa [List.isPrefixOf] using h
      obtain ⟨rfl, h3⟩ := h2
      have h4 := ih h3
      calc a :: bs = a :: (as ++ bs.drop as.length) := by rw [← h4]
        _ = (a :: as) ++ (a :: bs).drop (a :: as).length := by simp

theorem drop_len_append {n : Nat} (l r : Str) (h : n = l.length) : (l ++ r).drop n = r := by
  subst h; exact List.drop_left l r

theorem takeWhile_append_of_all {p : Char → Bool} :
    ∀ {l : Str} (r : Str), (∀ c ∈ l, p c = true) →
      (l ++ r).takeWhile p = l ++ r.takeWhile p := by
  intro l
  induction l with
  | nil => intro r _; simp
  | cons a as ih =>
    intro r h
    have ha : p a = true := h a (by simp)
    have h2 : ∀ c ∈ as, p c = true := fun c hc => h c (by simp [hc])
    simp only [List.cons_append, List.takeWhile_cons_of_pos ha, ih r h2]

theorem dropWhile_append_of_all {p : Char → Bool} :
    ∀ {l : Str} (r : Str), (∀ c ∈ l, p c = true) →
      (l ++ r).dropWhile p = r.dropWhile p := by
  intro l
  induction l with
  | nil => intro r _; simp
  | cons a as ih =>
    intro r h
    have ha : p a = true := h a (by simp)
    have h2 : ∀ c ∈ as, p c = true := fun c hc => h c (by simp [hc])
    simp only [List.cons_append, List.dropWhile_cons_of_pos ha, ih r h2]

theorem replaceAllF_no_occur {needle rep : Str} :
    ∀ (fuel : Nat) (s : Str), occursIn needle s = false →
      replaceAllF needle rep fuel s = s := by
  intro fuel
  induction fuel with
  | zero => intro s _; rfl
  | succ f ih =>
    intro s h
    cases s with
    | nil => rfl
    | cons c cs =>
      have h2 : needle.isPrefixOf (c :: cs) = false ∧ occursIn needle cs = false := by
        simpa [occursIn, Bool.or_eq_false_iff] using h
      simp [replaceAllF, h2.1, ih cs h2.2]

theorem replaceAll_no_occur {needle rep s : Str} (h : occursIn needle s = false) :
    replaceAll needle rep s = s :=
  replaceAllF_no_occur _ s h

theorem isSpaceChar_eq_false_of_isDigit {c : Char} (h : c.isDigit = true) :
    isSpaceChar c = false := by
  cases hs : isSpaceChar c
  · rfl
  · exfalso
    have h6 : ((((c = ' ' ∨ c = '\t') ∨ c = '\n') ∨ c = '\x0d') ∨ c = '\x0b') ∨ c = '\x0c' := by
      simpa [isSpaceChar] using hs
    rcases h6 with ((((rfl | rfl) | rfl) | rfl) | rfl) | rfl <;> exact absurd h (by decide)

theorem ciChar_elim {l u c : Char} (h : ciChar l u c = true) : c = l ∨ c = u := by
  simpa [ciChar] using h

/-- `nodeStepEff` computes the same command as `nodeStep` and only ever
appends to the log. -/
theorem nodeStepEff_spec (cfg : StressConfig) (s : Str) (log : List Str) :
    (nodeStepEff cfg s log).1 = nodeStep cfg s ∧
    ∃ extra, (nodeStepEff cfg s log).2 = log ++ extra := by
  unfold nodeStepEff nodeStep
  by_cases h : cfg.node_ips ≠ [] ∧ occursIn "-node".data s = false
  · rw [if_pos h, if_pos h]
    cases hm : cfg.multiRegion
    · exact ⟨by simp, [], by simp⟩
    · cases hd : cfg.dcForLoaderRegion with
      | none => exact ⟨by simp, [dcErrorLine], by simp⟩
      | some dc =>
        by_cases hdc : dc = []
        · exact ⟨by simp [hdc], [dcErrorLine], by simp [hdc]⟩
        · exact ⟨by simp [hdc], [], by simp [hdc]⟩
  · rw [if_neg h, if_neg h]
    exact ⟨rfl, [], by simp⟩

/-! ## Soundness of the rate scanner for the declarative relation -/

theorem parseRateTail_sound {cs ds : Str} {k : Nat}
    (h : parseRateTail cs = some (ds, k)) :
    ∃ ws rest : Str,
      cs = "fixed=".data ++ (ws ++ (ds ++ ("/s".data ++ rest))) ∧
      (∀ c ∈ ws, isSpaceChar c = true) ∧ ds ≠ [] ∧ (∀ c ∈ ds, c.isDigit = true) ∧
      cs.drop k = rest := by
  by_cases hp : "fixed=".data.isPrefixOf cs = true
  case neg =>
    exfalso
    rw [parseRateTail] at h
    rw [if_neg hp] at h
    exact Option.noConfusion h
  case pos =>
    simp only [parseRateTail, if_pos hp] at h
    set r1 := cs.drop 6 with hr1
    set ws := r1.takeWhile isSpaceChar with hws
    set r2 := r1.dropWhile isSpaceChar with hr2
    set ds0 := r2.takeWhile Char.isDigit with hds0
    set r3 := r2.dropWhile Char.isDigit with hr3
    by_cases he : ds0.isEmpty = true
    · rw [if_pos he] at h; exact absurd h (by simp)
    · rw [if_neg he] at h
      by_cases hp2 : "/s".data.isPrefixOf r3 = true
      · rw [if_pos hp2] at h
        have hinj : ds0 = ds ∧ 6 + ws.length + ds0.length + 2 = k := by
          simpa using h
        obtain ⟨rfl, hk⟩ := hinj
        refine ⟨ws, r3.drop 2, ?_, ?_, ?_, ?_, ?_⟩
        · have e1 : cs = "fixed=".data ++ r1 := eq_append_drop_of_isPrefixOf hp
          have e2 : r1 = ws ++ r2 := (List.takeWhile_append_dropWhile _ _).symm
          have e3 : r2 = ds0 ++ r3 := (List.takeWhile_append_dropWhile _ _).symm
          have e4 : r3 = "/s".data ++ r3.drop 2 := eq_append_drop_of_isPrefixOf hp2
          rw [e1, e2, e3, ← e4]
        · exact fun c hc => List.mem_takeWhile_imp hc
        · intro hnil; rw [hnil] at he; exact he rfl
        · exact fun c hc => List.mem_takeWhile_imp hc
        · have e1 : cs = "fixed=".data ++ r1 := eq_append_drop_of_isPrefixOf hp
          have e2 : r1 = ws ++ r2 := (List.takeWhile_append_dropWhile _ _).symm
          have e3 : r2 = ds0 ++ r3 := (List.takeWhile_append_dropWhile _ _).symm
          have e5 : cs = ("fixed=".data ++ ws ++ ds0) ++ r3 := by
            rw [e1, e2, e3]; simp [List.append_assoc]
          rw [e5, ← hk]
          have e6 : (("fixed=".data ++ ws ++ ds0) ++ r3).drop ("fixed=".data ++ ws ++ ds0).length
              = r3 := drop_len_append _ _ rfl
          have e7 : ("fixed=".data ++ ws ++ ds0).length = 6 + ws.length + ds0.length := by
            simp [List.length_append]
            omega
          rw [show 6 + ws.length + ds0.length + 2 = ("fixed=".data ++ ws ++ ds0).length + 2 by
            rw [e7]]
          rw [← List.drop_drop, e6]
      · rw [if_neg hp2] at h; exact absurd h (by simp)

theorem parseRateTail_complete (ws ds rest : Str)
    (hws : ∀ c ∈ ws, isSpaceChar c = true) (hne : ds ≠ [])
    (hds : ∀ c ∈ ds, c.isDigit = true) :
    parseRateTail ("fixed=".data ++ (ws ++ (ds ++ ("/s".data ++ rest)))) =
      some (ds, 6 + ws.length + ds.length + 2) := by
  obtain ⟨d, ds', rfl⟩ : ∃ d ds', ds = d :: ds' := by
    cases ds with
    | nil => exact absurd rfl hne
    | cons d ds' => exact ⟨d, ds', rfl⟩
  have hd : isSpaceChar d = false :=
    isSpaceChar_eq_false_of_isDigit (hds d (by simp))
  have hdrop : ("fixed=".data ++ (ws ++ ((d :: ds') ++ ("/s".data ++ rest)))).drop 6
      = ws ++ ((d :: ds') ++ ("/s".data ++ rest)) := drop_len_append _ _ rfl
  have htw : (ws ++ ((d :: ds') ++ ("/s".data ++ rest))).takeWhile isSpaceChar = ws := by
    rw [takeWhile_append_of_all _ hws, List.cons_append,
      List.takeWhile_cons_of_neg (by simp [hd])]
    simp
  have hdw : (ws ++ ((d :: ds') ++ ("/s".data ++ rest))).dropWhile isSpaceChar
      = (d :: ds') ++ ("/s".data ++ rest) := by
    rw [dropWhile_append_of_all _ hws, List.cons_append,
      List.dropWhile_cons_of_neg (by simp [hd]), List.cons_append]
  have hslash : ("/s".data ++ rest) = '/' :: 's' :: rest := rfl
  have htd : ((d :: ds') ++ ("/s".data ++ rest)).takeWhile Char.isDigit = d :: ds' := by
    rw [takeWhile_append_of_all _ hds, hslash,
      List.takeWhile_cons_of_neg (by decide)]
    simp
  have hdd : ((d :: ds') ++ ("/s".data ++ rest)).dropWhile Char.isDigit
      = "/s".data ++ rest := by
    rw [dropWhile_append_of_all _ hds, hslash,
      List.dropWhile_cons_of_neg (by decide), ← hslash]
  simp only [parseRateTail, isPrefixOf_self_append, if_pos, hdrop, htw, hdw, htd, hdd]
  rfl

theorem rateSubF_sound : ∀ (fuel : Nat) (s : Str), s.length ≤ fuel →
    RateRW s (rateSubF fuel s) := by
  intro fuel
  induction fuel with
  | zero =>
    intro s h
    cases s with
    | nil => exact RateRW.nil
    | cons c cs => simp at h
  | succ f ih =>
    intro s h
    cases s with
    | nil => exact RateRW.nil
    | cons c cs =>
      by_cases hc : c = ' '
      · subst hc
        cases hp : parseRateTail cs with
        | some p =>
          obtain ⟨ds, k⟩ := p
          obtain ⟨ws, rest, hcs, hws, hne, hds, hdropk⟩ := parseRateTail_sound hp
          have hstep : rateSubF (f + 1) (' ' :: cs) =
              (" throttle=".data ++ ds ++ "/s fixed".data) ++ rateSubF f (cs.drop k) := by
            simp [rateSubF, hp]
          rw [hstep, hdropk]
          have hs2 : (' ' : Char) :: cs =
              " fixed=".data ++ (ws ++ (ds ++ ("/s".data ++ rest))) := by
            rw [hcs]; rfl
          rw [hs2]
          have hrest : rest.length ≤ f := by
            rw [← hdropk]
            have h1 := List.length_drop k cs
            simp only [List.length_cons] at h
            omega
          have hr := RateRW.rw ws ds rest (rateSubF f rest) hws hne hds (ih rest hrest)
          simpa [List.append_assoc] using hr
        | none =>
          have hstep : rateSubF (f + 1) (' ' :: cs) = ' ' :: rateSubF f cs := by
            simp [rateSubF, hp]
          rw [hstep]
          refine RateRW.keep ' ' cs _ ?_ (ih cs (by simp only [List.length_cons] at h; omega))
          rintro ⟨ws, ds, rest, hcs, hws, hne, hds⟩
          have hcs' : cs = "fixed=".data ++ (ws ++ (ds ++ ("/s".data ++ rest))) := by
            have h2 : (' ' : Char) :: cs =
                ' ' :: ("fixed=".data ++ (ws ++ (ds ++ ("/s".data ++ rest)))) := by
              rw [hcs]; rfl
            simpa using h2
          rw [hcs', parseRateTail_complete ws ds rest hws hne hds] at hp
          exact Option.noConfusion hp
      · have hstep : rateSubF (f + 1) (c :: cs) = c :: rateSubF f cs := by
          simp [rateSubF, hc]
        rw [hstep]
        refine RateRW.keep c cs _ ?_ (ih cs (by simp only [List.length_cons] at h; omega))
        rintro ⟨ws, ds, rest, hcs, -, -, -⟩
        have hh := congrArg List.head? hcs
        simp at hh
        exact hc hh

/-- The rate substitution of line 73 realises the declarative
left-to-right rewrite relation on every string. -/
theorem rateSub_sound (s : Str) : RateRW s (rateSub s) :=
  rateSubF_sound s.length s (Nat.le_refl _)

/-! ## Soundness of the column scanner for the declarative relation -/

theorem ciFixedParen_sound {r2 r3 : Str} (h : ciFixedParen r2 = some r3) :
    ∃ f1 f2 f3 f4 f5 : Char,
      r2 = f1 :: f2 :: f3 :: f4 :: f5 :: '(' :: r3 ∧
      ciChar 'f' 'F' f1 = true ∧ ciChar 'i' 'I' f2 = true ∧ ciChar 'x' 'X' f3 = true ∧
      ciChar 'e' 'E' f4 = true ∧ ciChar 'd' 'D' f5 = true := by
  rcases r2 with _ | ⟨f1, _ | ⟨f2, _ | ⟨f3, _ | ⟨f4, _ | ⟨f5, _ | ⟨f6, r3'⟩⟩⟩⟩⟩⟩ <;>
    try exact Option.noConfusion h
  simp only [ciFixedParen] at h
  by_cases hg : ciChar 'f' 'F' f1 = true ∧ ciChar 'i' 'I' f2 = true ∧ ciChar 'x' 'X' f3 = true ∧
      ciChar 'e' 'E' f4 = true ∧ ciChar 'd' 'D' f5 = true ∧ f6 = '('
  · rw [if_pos hg] at h
    obtain ⟨h1, h2, h3, h4, h5, rfl⟩ := hg
    obtain rfl : r3' = r3 := by simpa using h
    exact ⟨f1, f2, f3, f4, f5, rfl, h1, h2, h3, h4, h5⟩
  · rw [if_neg hg] at h; exact Option.noConfusion h

theorem ciFixedParen_complete {f1 f2 f3 f4 f5 : Char} (r3 : Str)
    (h1 : ciChar 'f' 'F' f1 = true) (h2 : ciChar 'i' 'I' f2 = true)
    (h3 : ciChar 'x' 'X' f3 = true) (h4 : ciChar 'e' 'E' f4 = true)
    (h5 : ciChar 'd' 'D' f5 = true) :
    ciFixedParen (f1 :: f2 :: f3 :: f4 :: f5 :: '(' :: r3) = some r3 := by
  simp [ciFixedParen, h1, h2, h3, h4, h5]

theorem isSpaceChar_eq_false_of_ciF {c : Char} (h : ciChar 'f' 'F' c = true) :
    isSpaceChar c = false := by
  rcases ciChar_elim h with rfl | rfl <;> decide

theorem parseColCore_sound {r0 ds : Str} {q2 : Bool} {k : Nat}
    (h : parseColCore r0 = some (ds, q2, k)) :
    ∃ (nc f1 f2 f3 f4 f5 : Char) (ws rest : Str),
      r0 = nc :: '=' :: (ws ++ (f1 :: f2 :: f3 :: f4 :: f5 :: '(' ::
        (ds ++ (')' :: (qs q2 ++ rest))))) ∧
      ciChar 'n' 'N' nc = true ∧ (∀ c ∈ ws, isSpaceChar c = true) ∧
      ciChar 'f' 'F' f1 = true ∧ ciChar 'i' 'I' f2 = true ∧ ciChar 'x' 'X' f3 = true ∧
      ciChar 'e' 'E' f4 = true ∧ ciChar 'd' 'D' f5 = true ∧
      ds ≠ [] ∧ (∀ c ∈ ds, c.isDigit = true) ∧
      (q2 = false → ∀ c ∈ rest.take 1, c ≠ qc) ∧
      r0.drop k = rest := by
  rcases r0 with _ | ⟨a, _ | ⟨b, r1⟩⟩
  · exact Option.noConfusion h
  · exact Option.noConfusion h
  simp only [parseColCore] at h
  by_cases hg : ciChar 'n' 'N' a = true ∧ b = '='
  case neg => rw [if_neg hg] at h; exact Option.noConfusion h
  case pos =>
  rw [if_pos hg] at h
  obtain ⟨hn, rfl⟩ := hg
  cases hf : ciFixedParen (r1.dropWhile isSpaceChar) with
  | none => rw [hf] at h; exact Option.noConfusion h
  | some r3 =>
  simp only [hf] at h
  obtain ⟨f1, f2, f3, f4, f5, hr2eq, hf1, hf2, hf3, hf4, hf5⟩ := ciFixedParen_sound hf
  cases hd : r3.dropWhile Char.isDigit with
  | nil => simp only [hd] at h; exact Option.noConfusion h
  | cons cp r5 =>
  simp only [hd] at h
  by_cases hg2 : (r3.takeWhile Char.isDigit).isEmpty = false ∧ cp = ')'
  case neg => rw [if_neg hg2] at h; exact Option.noConfusion h
  case pos =>
  rw [if_pos hg2] at h
  obtain ⟨hne0, rfl⟩ := hg2
  have e1 : r1 = r1.takeWhile isSpaceChar ++ r1.dropWhile isSpaceChar :=
    (List.takeWhile_append_dropWhile _ _).symm
  have e2 : r3 = r3.takeWhile Char.isDigit ++ (')' :: r5) := by
    conv_lhs => rw [← List.takeWhile_append_dropWhile Char.isDigit r3]
    rw [hd]
  have hwsp : ∀ c ∈ r1.takeWhile isSpaceChar, isSpaceChar c = true :=
    fun c hc => List.mem_takeWhile_imp hc
  have hdig : ∀ c ∈ r3.takeWhile Char.isDigit, c.isDigit = true :=
    fun c hc => List.mem_takeWhile_imp hc
  have hnnil : r3.takeWhile Char.isDigit ≠ [] := by
    intro hx; rw [hx] at hne0; simp at hne0
  cases r5 with
  | nil =>
    have hinj : r3.takeWhile Char.isDigit = ds ∧ false = q2 ∧
        2 + (r1.takeWhile isSpaceChar).length + 6 + (r3.takeWhile Char.isDigit).length + 1 = k := by
      simpa using h
    obtain ⟨hds0, hq2, hk⟩ := hinj
    subst hq2
    have e2p : r3 = ds ++ [')'] := by rw [← hds0]; exact e2
    have hdig2 : ∀ c ∈ ds, c.isDigit = true := by rw [← hds0]; exact hdig
    have hnnil2 : ds ≠ [] := by rw [← hds0]; exact hnnil
    rw [hds0] at hk
    refine ⟨a, f1, f2, f3, f4, f5, r1.takeWhile isSpaceChar, [], ?_, hn, hwsp,
      hf1, hf2, hf3, hf4, hf5, hnnil2, hdig2, by intro _ c hc; simp at hc, ?_⟩
    · conv_lhs => rw [e1, hr2eq, e2p]
      simp [qs]
    · have e5 : (a :: '=' :: r1) =
          (a :: '=' :: (r1.takeWhile isSpaceChar ++
            (f1 :: f2 :: f3 :: f4 :: f5 :: '(' :: (ds ++ [')'])))) ++ ([] : Str) := by
        conv_lhs => rw [e1, hr2eq, e2p]
        simp
      rw [e5, ← hk]
      apply drop_len_append
      simp [List.length_append]
      omega
  | cons c2 r6 =>
    by_cases hc2 : c2 = qc
    · subst hc2
      have hinj : r3.takeWhile Char.isDigit = ds ∧ true = q2 ∧
          2 + (r1.takeWhile isSpaceChar).length + 6 + (r3.takeWhile Char.isDigit).length + 2 = k := by
        simpa using h
      obtain ⟨hds0, hq2, hk⟩ := hinj
      subst hq2
      have e2p : r3 = ds ++ (')' :: qc :: r6) := by rw [← hds0]; exact e2
      have hdig2 : ∀ c ∈ ds, c.isDigit = true := by rw [← hds0]; exact hdig
      have hnnil2 : ds ≠ [] := by rw [← hds0]; exact hnnil
      rw [hds0] at hk
      refine ⟨a, f1, f2, f3, f4, f5, r1.takeWhile isSpaceChar, r6, ?_, hn, hwsp,
        hf1, hf2, hf3, hf4, hf5, hnnil2, hdig2, by intro hx; exact absurd hx (by decide), ?_⟩
      · conv_lhs => rw [e1, hr2eq, e2p]
        simp [qs]
      · have e5 : (a :: '=' :: r1) =
            (a :: '=' :: (r1.takeWhile isSpaceChar ++
              (f1 :: f2 :: f3 :: f4 :: f5 :: '(' :: (ds ++ [')', qc])))) ++ r6 := by
          conv_lhs => rw [e1, hr2eq, e2p]
          simp
        rw [e5, ← hk]
        apply drop_len_append
        simp [List.length_append]
        omega
    · have hinj : r3.takeWhile Char.isDigit = ds ∧ false = q2 ∧
          2 + (r1.takeWhile isSpaceChar).length + 6 + (r3.takeWhile Char.isDigit).length + 1 = k := by
        simpa [hc2] using h
      obtain ⟨hds0, hq2, hk⟩ := hinj
      subst hq2
      have e2p : r3 = ds ++ (')' :: c2 :: r6) := by rw [← hds0]; exact e2
      have hdig2 : ∀ c ∈ ds, c.isDigit = true := by rw [← hds0]; exact hdig
      have hnnil2 : ds ≠ [] := by rw [← hds0]; exact hnnil
      rw [hds0] at hk
      refine ⟨a, f1, f2, f3, f4, f5, r1.takeWhile isSpaceChar, c2 :: r6, ?_, hn, hwsp,
        hf1, hf2, hf3, hf4, hf5, hnnil2, hdig2, ?_, ?_⟩
      · conv_lhs => rw [e1, hr2eq, e2p]
        simp [qs]
      · intro _ c hc
        simp at hc
        subst hc
        exact hc2
      · have e5 : (a :: '=' :: r1) =
            (a :: '=' :: (r1.takeWhile isSpaceChar ++
              (f1 :: f2 :: f3 :: f4 :: f5 :: '(' :: (ds ++ [')'])))) ++ (c2 :: r6) := by
          conv_lhs => rw [e1, hr2eq, e2p]
          simp
        rw [e5, ← hk]
        apply drop_len_append
        simp [List.length_append]
        omega

theorem parseColCore_complete (nc f1 f2 f3 f4 f5 : Char) (ws ds : Str) (q2 : Bool) (rest : Str)
    (hn : ciChar 'n' 'N' nc = true) (hws : ∀ c ∈ ws, isSpaceChar c = true)
    (hf1 : ciChar 'f' 'F' f1 = true) (hf2 : ciChar 'i' 'I' f2 = true)
    (hf3 : ciChar 'x' 'X' f3 = true) (hf4 : ciChar 'e' 'E' f4 = true)
    (hf5 : ciChar 'd' 'D' f5 = true)
    (hne : ds ≠ []) (hds : ∀ c ∈ ds, c.isDigit = true)
    (hq2 : q2 = false → ∀ c ∈ rest.take 1, c ≠ qc) :
    ∃ k, parseColCore (nc :: '=' :: (ws ++ (f1 :: f2 :: f3 :: f4 :: f5 :: '(' ::
      (ds ++ (')' :: (qs q2 ++ rest)))))) = some (ds, q2, k) := by
  have hf1s : isSpaceChar f1 = false := isSpaceChar_eq_false_of_ciF hf1
  have htw : (ws ++ (f1 :: f2 :: f3 :: f4 :: f5 :: '(' ::
      (ds ++ (')' :: (qs q2 ++ rest))))).takeWhile isSpaceChar = ws := by
    rw [takeWhile_append_of_all _ hws, List.takeWhile_cons_of_neg (by simp [hf1s])]
    simp
  have hdw : (ws ++ (f1 :: f2 :: f3 :: f4 :: f5 :: '(' ::
      (ds ++ (')' :: (qs q2 ++ rest))))).dropWhile isSpaceChar =
      f1 :: f2 :: f3 :: f4 :: f5 :: '(' :: (ds ++ (')' :: (qs q2 ++ rest))) := by
    rw [dropWhile_append_of_all _ hws, List.dropWhile_cons_of_neg (by simp [hf1s])]
  have htd : (ds ++ (')' :: (qs q2 ++ rest))).takeWhile Char.isDigit = ds := by
    rw [takeWhile_append_of_all _ hds, List.takeWhile_cons_of_neg (by decide)]
    simp
  have hdd : (ds ++ (')' :: (qs q2 ++ rest))).dropWhile Char.isDigit =
      ')' :: (qs q2 ++ rest) := by
    rw [dropWhile_append_of_all _ hds, List.dropWhile_cons_of_neg (by decide)]
  have hemp : ds.isEmpty = false := by
    cases ds with
    | nil => exact absurd rfl hne
    | cons d ds' => rfl
  simp only [parseColCore, hn, htw, hdw, ciFixedParen_complete _ hf1 hf2 hf3 hf4 hf5,
    htd, hdd, hemp]
  cases q2 with
  | true =>
    refine ⟨2 + ws.length + 6 + ds.length + 2, ?_⟩
    simp [qs]
  | false =>
    cases hrest : rest with
    | nil => exact ⟨2 + ws.length + 6 + ds.length + 1, by simp [qs]⟩
    | cons c2 r6 =>
      have hc2 : c2 ≠ qc := hq2 rfl c2 (by simp [hrest])
      exact ⟨2 + ws.length + 6 + ds.length + 1, by simp [qs, hrest, hc2]⟩

theorem parseColTail_sound {cs ds : Str} {q1 q2 : Bool} {k : Nat}
    (h : parseColTail cs = some (q1, ds, q2, k)) :
    ∃ (nc f1 f2 f3 f4 f5 : Char) (ws rest : Str),
      cs = qs q1 ++ (nc :: '=' :: (ws ++ (f1 :: f2 :: f3 :: f4 :: f5 :: '(' ::
        (ds ++ (')' :: (qs q2 ++ rest)))))) ∧
      ciChar 'n' 'N' nc = true ∧ (∀ c ∈ ws, isSpaceChar c = true) ∧
      ciChar 'f' 'F' f1 = true ∧ ciChar 'i' 'I' f2 = true ∧ ciChar 'x' 'X' f3 = true ∧
      ciChar 'e' 'E' f4 = true ∧ ciChar 'd' 'D' f5 = true ∧
      ds ≠ [] ∧ (∀ c ∈ ds, c.isDigit = true) ∧
      (q2 = false → ∀ c ∈ rest.take 1, c ≠ qc) ∧
      cs.drop k = rest := by
  rcases cs with _ | ⟨c, rest0⟩
  · exact Option.noConfusion h
  simp only [parseColTail] at h
  by_cases hc : c = qc
  · rw [if_pos hc] at h
    cases hcore : parseColCore rest0 with
    | none => rw [hcore] at h; exact Option.noConfusion h
    | some p =>
      rw [hcore] at h
      obtain ⟨ds0, q20, k0⟩ := p
      have hinj : true = q1 ∧ ds0 = ds ∧ q20 = q2 ∧ k0 + 1 = k := by simpa using h
      obtain ⟨hq1, hds0, hq20, hk⟩ := hinj
      subst hq1; subst hds0; subst hq20
      obtain ⟨nc, f1, f2, f3, f4, f5, ws, rest, heq, hs⟩ := parseColCore_sound hcore
      refine ⟨nc, f1, f2, f3, f4, f5, ws, rest, ?_, hs.1, hs.2.1, hs.2.2.1, hs.2.2.2.1,
        hs.2.2.2.2.1, hs.2.2.2.2.2.1, hs.2.2.2.2.2.2.1, hs.2.2.2.2.2.2.2.1,
        hs.2.2.2.2.2.2.2.2.1, hs.2.2.2.2.2.2.2.2.2.1, ?_⟩
      · rw [hc, heq]; simp [qs]
      · rw [← hk]
        have : (c :: rest0).drop (k0 + 1) = rest0.drop k0 := rfl
        rw [this]
        exact hs.2.2.2.2.2.2.2.2.2.2
  · rw [if_neg hc] at h
    cases hcore : parseColCore (c :: rest0) with
    | none => rw [hcore] at h; exact Option.noConfusion h
    | some p =>
      rw [hcore] at h
      obtain ⟨ds0, q20, k0⟩ := p
      have hinj : false = q1 ∧ ds0 = ds ∧ q20 = q2 ∧ k0 = k := by simpa using h
      obtain ⟨hq1, hds0, hq20, hk⟩ := hinj
      subst hq1; subst hds0; subst hq20; subst hk
      obtain ⟨nc, f1, f2, f3, f4, f5, ws, rest, heq, hs⟩ := parseColCore_sound hcore
      exact ⟨nc, f1, f2, f3, f4, f5, ws, rest, by rw [heq]; simp [qs], hs.1, hs.2.1,
        hs.2.2.1, hs.2.2.2.1, hs.2.2.2.2.1, hs.2.2.2.2.2.1, hs.2.2.2.2.2.2.1,
        hs.2.2.2.2.2.2.2.1, hs.2.2.2.2.2.2.2.2.1, hs.2.2.2.2.2.2.2.2.2.1,
        hs.2.2.2.2.2.2.2.2.2.2⟩

theorem parseColTail_complete (q1 : Bool) (nc f1 f2 f3 f4 f5 : Char) (ws ds : Str)
    (q2 : Bool) (rest : Str)
    (hn : ciChar 'n' 'N' nc = true) (hws : ∀ c ∈ ws, isSpaceChar c = true)
    (hf1 : ciChar 'f' 'F' f1 = true) (hf2 : ciChar 'i' 'I' f2 = true)
    (hf3 : ciChar 'x' 'X' f3 = true) (hf4 : ciChar 'e' 'E' f4 = true)
    (hf5 : ciChar 'd' 'D' f5 = true)
    (hne : ds ≠ []) (hds : ∀ c ∈ ds, c.isDigit = true)
    (hq2 : q2 = false → ∀ c ∈ rest.take 1, c ≠ qc) :
    ∃ k, parseColTail (qs q1 ++ (nc :: '=' :: (ws ++ (f1 :: f2 :: f3 :: f4 :: f5 :: '(' ::
      (ds ++ (')' :: (qs q2 ++ rest))))))) = some (q1, ds, q2, k) := by
  obtain ⟨k0, hk0⟩ := parseColCore_complete nc f1 f2 f3 f4 f5 ws ds q2 rest
    hn hws hf1 hf2 hf3 hf4 hf5 hne hds hq2
  cases q1 with
  | true =>
    refine ⟨k0 + 1, ?_⟩
    have hshape : qs true ++ (nc :: '=' :: (ws ++ (f1 :: f2 :: f3 :: f4 :: f5 :: '(' ::
        (ds ++ (')' :: (qs q2 ++ rest)))))) = qc :: (nc :: '=' :: (ws ++
        (f1 :: f2 :: f3 :: f4 :: f5 :: '(' :: (ds ++ (')' :: (qs q2 ++ rest)))))) := by
      simp [qs]
    rw [hshape]
    simp only [parseColTail]
    rw [if_pos trivial, hk0]
    rfl
  | false =>
    have hnc : nc ≠ qc := by
      rcases ciChar_elim hn with rfl | rfl <;> decide
    refine ⟨k0, ?_⟩
    have hshape : qs false ++ (nc :: '=' :: (ws ++ (f1 :: f2 :: f3 :: f4 :: f5 :: '(' ::
        (ds ++ (')' :: (qs q2 ++ rest)))))) = nc :: '=' :: (ws ++
        (f1 :: f2 :: f3 :: f4 :: f5 :: '(' :: (ds ++ (')' :: (qs q2 ++ rest))))) := by
      simp [qs]
    rw [hshape]
    simp only [parseColTail]
    rw [if_neg hnc, hk0]
    rfl

theorem colSubF_sound : ∀ (fuel : Nat) (s : Str), s.length ≤ fuel →
    ColRW s (colSubF fuel s) := by
  intro fuel
  induction fuel with
  | zero =>
    intro s h
    cases s with
    | nil => exact ColRW.nil
    | cons c cs => simp at h
  | succ f ih =>
    intro s h
    cases s with
    | nil => exact ColRW.nil
    | cons c cs =>
      by_cases hc : c = ' '
      · subst hc
        cases hp : parseColTail cs with
        | some p =>
          obtain ⟨q1, ds, q2, k⟩ := p
          obtain ⟨nc, f1, f2, f3, f4, f5, ws, rest, hcs, hn, hws, hf1, hf2, hf3, hf4, hf5,
            hne, hds, hq2, hdropk⟩ := parseColTail_sound hp
          have hstep : colSubF (f + 1) (' ' :: cs) =
              (' ' :: qs q1 ++ "n=".data ++ ds ++ qs q2) ++ colSubF f (cs.drop k) := by
            simp [colSubF, hp]
          rw [hstep, hdropk]
          have hrest : rest.length ≤ f := by
            rw [← hdropk]
            have h1 := List.length_drop k cs
            simp only [List.length_cons] at h
            omega
          have hr := ColRW.rw q1 nc f1 f2 f3 f4 f5 ws ds q2 rest (colSubF f rest)
            hn hws hf1 hf2 hf3 hf4 hf5 hne hds hq2 (ih rest hrest)
          have hin : (' ' : Char) :: cs = ' ' :: (qs q1 ++ (nc :: '=' :: (ws ++
              (f1 :: f2 :: f3 :: f4 :: f5 :: '(' :: (ds ++ (')' :: (qs q2 ++ rest))))))) := by
            rw [hcs]
          rw [hin]
          have hout : (' ' :: qs q1 ++ "n=".data ++ ds ++ qs q2) ++ colSubF f rest =
              ' ' :: (qs q1 ++ ('n' :: '=' :: (ds ++ (qs q2 ++ colSubF f rest)))) := by
            rw [show ("n=".data : Str) = ['n', '='] from rfl]
            simp [List.append_assoc]
          rw [hout]
          exact hr
        | none =>
          have hstep : colSubF (f + 1) (' ' :: cs) = ' ' :: colSubF f cs := by
            simp [colSubF, hp]
          rw [hstep]
          refine ColRW.keep ' ' cs _ ?_ (ih cs (by simp only [List.length_cons] at h; omega))
          rintro ⟨q1, nc, f1, f2, f3, f4, f5, ws, ds, q2, rest, heq, hn, hws, hf1, hf2, hf3,
            hf4, hf5, hne, hds, hq2⟩
          have hcs' : cs = qs q1 ++ (nc :: '=' :: (ws ++ (f1 :: f2 :: f3 :: f4 :: f5 :: '(' ::
              (ds ++ (')' :: (qs q2 ++ rest)))))) := by
            simpa using heq
          obtain ⟨k0, hk0⟩ := parseColTail_complete q1 nc f1 f2 f3 f4 f5 ws ds q2 rest
            hn hws hf1 hf2 hf3 hf4 hf5 hne hds hq2
          rw [hcs', hk0] at hp
          exact Option.noConfusion hp
      · have hstep : colSubF (f + 1) (c :: cs) = c :: colSubF f cs := by
          simp [colSubF, hc]
        rw [hstep]
        refine ColRW.keep c cs _ ?_ (ih cs (by simp only [List.length_cons] at h; omega))
        rintro ⟨q1, nc, f1, f2, f3, f4, f5, ws, ds, q2, rest, heq, -⟩
        have hh := congrArg List.head? heq
        simp at hh
        exact hc hh

/-- The column substitution of line 65 realises the declarative
left-to-right rewrite relation on every string. -/
theorem colSub_sound (s : Str) : ColRW s (colSub s) :=
  colSubF_sound s.length s (Nat.le_refl _)

/-! # Claims -/

/-- Claim C1.  The claim states that every `_run_cs_stress` invocation —
including one whose run step raises an exception that is caught and
converted into a failure event — returns a three-element tuple, with no
exception propagating past the orchestrator.  The code violates this:
on the caught-exception path the local `result` is never assigned, so
the `return loader, result, cs_stress_event` of line 158 itself raises
`UnboundLocalError`, which propagates to the caller.  Only the
no-exception path returns the tuple. -/
theorem claim_C1 :
    (runCsStress false true).outcome = PyOutcome.raisedUnboundLocal ∧
    (runCsStress false true).outcome ≠ PyOutcome.returned ∧
    (runCsStress false false).outcome = PyOutcome.returned := by decide

/-- Claim C2.  The claim states that the acquired execution context is
released exactly once on every exit path, including an exception raised
during command translation (which happens after acquisition).  The code
violates this: `create_stress_cmd` is called on line 129, after the
`RemoteDocker` acquisition of line 123 but before the
`with cleanup_context` block of line 140 is entered, so an exception
there skips release entirely (release count 0, not 1).  The normal and
caught-run-exception paths do release exactly once. -/
theorem claim_C2 :
    Ev.provision ∈ (runCsStress true false).trace ∧
    (runCsStress true false).trace.count Ev.release = 0 ∧
    (runCsStress false false).trace.count Ev.release = 1 ∧
    (runCsStress false true).trace.count Ev.release = 1 := by decide

/-- Claim C3 counterexample.  The claim's formula `T + ⌈0.05·T⌉` fails
at `T = 10`: line 149 computes `10 + int(10 * 0.05) = 10 + 0 = 10`,
while the claim demands `10 + ⌈0.5⌉ = 11`. -/
theorem claim_C3_counterexample :
    hard_timeout 10 = 10 ∧ 10 + ceilFivePercent 10 = 11 ∧
    hard_timeout 10 ≠ 10 + ceilFivePercent 10 := by decide

/-- Claim C3 (amended): for every configured soft timeout `T`, the hard
timeout passed to the runner equals `T + ⌊0.05·T⌋` (Python's `int()`
truncates the product toward zero). -/
theorem claim_C3 : ∀ t : Nat, hard_timeout t = t + t / 20 := by
  intro t; unfold hard_timeout; omega

/-- Claim C4 counterexample.  Translating `idemIn` under `cfgBar`
(explicit keyspace name `bar`) yields a command with every property the
claim lists for an already-translated string — yet translating it again
changes it, because the explicit-keyspace injection of lines 50-52
replaces ` -schema ` anew on every application, duplicating
`keyspace=bar`. -/
theorem claim_C4_counterexample :
    occursIn "no-warmup".data (create_stress_cmd cfgBar 0 idemIn) = true ∧
    occursIn "keyspace=".data (create_stress_cmd cfgBar 0 idemIn) = true ∧
    occursIn "compaction(".data (create_stress_cmd cfgBar 0 idemIn) = true ∧
    colSub (create_stress_cmd cfgBar 0 idemIn) = create_stress_cmd cfgBar 0 idemIn ∧
    rateSub (create_stress_cmd cfgBar 0 idemIn) = create_stress_cmd cfgBar 0 idemIn ∧
    popSub (create_stress_cmd cfgBar 0 idemIn) = create_stress_cmd cfgBar 0 idemIn ∧
    occursIn "-node".data (create_stress_cmd cfgBar 0 idemIn) = true ∧
    create_stress_cmd cfgBar 0 (create_stress_cmd cfgBar 0 idemIn) ≠
      create_stress_cmd cfgBar 0 idemIn := by decide

/-- Claim C4 (amended): translation is idempotent on its own output
provided no explicit keyspace name is configured.  For every
configuration with an empty keyspace name, applying the translation to a
string that already contains no-warmup, a `keyspace=` assignment and a
compaction clause, on which the `n=`, rate and `dist=SEQ` rewrites are
no-ops, and which contains an explicit `-node` flag, yields the
identical string.  (With an explicit keyspace name configured the
keyspace injection re-fires on every application, as the counterexample
shows.) -/
theorem claim_C4 (cfg : StressConfig) (idx : Nat) (s : Str)
    (hname : cfg.keyspace_name = [])
    (h1 : occursIn "no-warmup".data s = true)
    (h2 : occursIn "keyspace=".data s = true)
    (h3 : occursIn "compaction(".data s = true)
    (h4 : colSub s = s) (h5 : rateSub s = s) (h6 : popSub s = s)
    (h7 : occursIn "-node".data s = true) :
    create_stress_cmd cfg idx s = s := by
  have hw : warmupStep s = s := by simp [warmupStep, h1]
  have hk : keyspaceStep cfg.keyspace_name idx s = s := by
    simp [keyspaceStep, hname, h2]
  have hc : compactionStep cfg.compaction_strategy s = s := by
    simp [compactionStep, h3]
  have hcol : colStep s = s := by unfold colStep; rw [h4]; simp
  have hrate : rateStep s = s := by unfold rateStep; rw [h5]; simp
  have hpop : popStep s = s := by unfold popStep; rw [h6]; simp
  have hn : nodeStep cfg s = s := by simp [nodeStep, h7]
  simp [create_stress_cmd, hw, hk, hc, hcol, hrate, hpop, hn]

/-- Claim C4 witness: the amended idempotence at a concrete
already-translated command with no explicit keyspace name configured. -/
theorem claim_C4_witness : create_stress_cmd cfgPlain 0 idemFix = idemFix :=
  claim_C4 cfgPlain 0 idemFix rfl (by decide) (by decide) (by decide)
    (by decide) (by decide) (by decide) (by decide)

/-- Claim C5.  Keyspace injection priority: (i) with no explicit name
configured, an existing `keyspace=` assignment is respected and nothing
is injected; (ii) with explicit name `bar` configured, `keyspace=bar` is
injected into the schema clause even though `keyspace=foo` exists, the
injected assignment comes first in the schema clause (so the configured
name is the effective one), and no index-derived default appears;
(iii) with neither, the index-derived default `keyspace=keyspace3` is
injected. -/
theorem claim_C5 :
    (∀ (s : Str) (i : Nat), occursIn "keyspace=".data s = true →
      keyspaceStep [] i s = s) ∧
    keyspaceStep "bar".data 7 sFoo = sFooBar ∧
    effectiveKeyspace sFooBar = some "bar".data ∧
    occursIn "keyspace=foo".data sFooBar = true ∧
    occursIn "keyspace7".data sFooBar = false ∧
    keyspaceStep [] 3 "cql-stress-cassandra-stress write -schema ".data =
      "cql-stress-cassandra-stress write -schema keyspace=keyspace3 ".data := by
  refine ⟨?_, by decide, by decide, by decide, by decide, by decide⟩
  intro s i h
  simp [keyspaceStep, h]

/-- Claim C5 witness: with no explicit name configured, the command with
an existing `keyspace=foo` assignment passes the keyspace rule
unchanged. -/
theorem claim_C5_witness : keyspaceStep [] 0 sFoo = sFoo :=
  claim_C5.1 sFoo 0 (by decide)

/-- Claim C6 counterexample.  The claim states that command translation
completes before the execution context is provisioned.  In the code the
`RemoteDocker` provisioning of line 123 precedes the
`create_stress_cmd` call of line 129: in the trace of a normal
invocation, translation does not come before provisioning. -/
theorem claim_C6_counterexample :
    Ev.translate ∈ (runCsStress false false).trace ∧
    Ev.provision ∈ (runCsStress false false).trace ∧
    ¬ (firstPos Ev.translate (runCsStress false false).trace <
        firstPos Ev.provision (runCsStress false false).trace) := by decide

/-- Claim C6 (amended): for every invocation whose translation step does
not itself raise, the orchestrator performs provision, then translate,
then run, then report — the provisioning of the execution context
completes before command translation — and no stage of the
per-invocation sequence Provisioning, Translating, Running, Reporting,
Release is skipped, on the normal path and on the caught-run-exception
path alike. -/
theorem claim_C6 : ∀ runRaises : Bool,
    firstPos Ev.provision (runCsStress false runRaises).trace <
      firstPos Ev.translate (runCsStress false runRaises).trace ∧
    firstPos Ev.translate (runCsStress false runRaises).trace <
      firstPos Ev.run (runCsStress false runRaises).trace ∧
    firstPos Ev.run (runCsStress false runRaises).trace <
      firstPos Ev.report (runCsStress false runRaises).trace ∧
    Ev.provision ∈ (runCsStress false runRaises).trace ∧
    Ev.translate ∈ (runCsStress false runRaises).trace ∧
    Ev.run ∈ (runCsStress false runRaises).trace ∧
    Ev.report ∈ (runCsStress false runRaises).trace ∧
    Ev.release ∈ (runCsStress false runRaises).trace := by
  intro b; cases b <;> decide

/-- Claim C7 counterexample.  The claim quantifies over every input
command string, but the code (line 60) applies the rewrite only when
`'-col'` occurs in the command: a command containing ` n=FIXED(5)` but
no `-col` flag passes the whole translation unchanged, and no `n=5`
appears in the output. -/
theorem claim_C7_counterexample :
    occursIn " n=FIXED(5)".data noColCmd = true ∧
    create_stress_cmd cfgPlain 0 noColCmd = noColCmd ∧
    occursIn "n=5".data (create_stress_cmd cfgPlain 0 noColCmd) = false := by decide

/-- Claim C7 (amended): for every input command containing `-col`, the
column rule performs the left-to-right rewrite of every occurrence of
the case-insensitive, optionally quoted `n=FIXED(k)` column-count
specification (whitespace allowed between `n=` and `FIXED`) into a bare
`n=k` (the declarative relation `ColRW`); commands without `-col` are
left unchanged by this rule; and the literal scenario `-col n=FIXED(5)`
translates to a command containing `-col n=5`. -/
theorem claim_C7 :
    (∀ s : Str, occursIn "-col".data s = true → ColRW s (colStep s)) ∧
    (∀ s : Str, occursIn "-col".data s = false → colStep s = s) ∧
    occursIn "-col n=5".data (create_stress_cmd cfgPlain 0 colScenario) = true := by
  refine ⟨?_, ?_, by decide⟩
  · intro s h
    unfold colStep
    rw [if_pos h]
    exact colSub_sound s
  · intro s h
    unfold colStep
    rw [if_neg (by simp [h])]

/-- Claim C7 witness: the rewrite relation and the guard at concrete
commands. -/
theorem claim_C7_witness :
    ColRW " -col n=FIXED(7)".data (colStep " -col n=FIXED(7)".data) ∧
    colStep "write -schema".data = "write -schema".data :=
  ⟨claim_C7.1 " -col n=FIXED(7)".data (by decide),
   claim_C7.2.1 "write -schema".data (by decide)⟩

/-- Claim C8.  For every command containing a `-rate` section, the rate
rule performs the left-to-right rewrite of every legacy `fixed=<N>/s`
rate specification into `throttle=<N>/s fixed` (the declarative
relation `RateRW`); without a `-rate` section the rule leaves the
command unchanged; and the literal scenario `-rate fixed=50000/s`
translates to a command containing `-rate throttle=50000/s fixed`. -/
theorem claim_C8 :
    (∀ s : Str, occursIn "-rate".data s = true → RateRW s (rateStep s)) ∧
    (∀ s : Str, occursIn "-rate".data s = false → rateStep s = s) ∧
    occursIn "-rate throttle=50000/s fixed".data
      (create_stress_cmd cfgPlain 0 rateScenario) = true := by
  refine ⟨?_, ?_, by decide⟩
  · intro s h
    unfold rateStep
    rw [if_pos h]
    exact rateSub_sound s
  · intro s h
    unfold rateStep
    rw [if_neg (by simp [h])]

/-- Claim C8 witness: the rewrite relation and the guard at concrete
commands. -/
theorem claim_C8_witness :
    RateRW " -rate fixed=10/s".data (rateStep " -rate fixed=10/s".data) ∧
    rateStep "write throttle=5/s".data = "write throttle=5/s".data :=
  ⟨claim_C8.1 " -rate fixed=10/s".data (by decide),
   claim_C8.2.1 "write throttle=5/s".data (by decide)⟩

/-- Claim C9.  The translation is a deterministic pure function of the
command string and the configuration (keyspace name, compaction
strategy, node list, keyspace index, topology-lookup result): equal
inputs give equal outputs; and threading the external log sink through
the computation shows the returned command is independent of the sink's
state and the only effect is appending the datacenter-lookup error
line. -/
theorem claim_C9 :
    (∀ (cfg1 cfg2 : StressConfig) (i1 i2 : Nat) (s1 s2 : Str),
      cfg1 = cfg2 → i1 = i2 → s1 = s2 →
      create_stress_cmd cfg1 i1 s1 = create_stress_cmd cfg2 i2 s2) ∧
    (∀ (cfg : StressConfig) (i : Nat) (s : Str) (log : List Str),
      (create_stress_cmd_io cfg i s log).1 = create_stress_cmd cfg i s ∧
      ∃ extra, (create_stress_cmd_io cfg i s log).2 = log ++ extra) := by
  constructor
  · rintro cfg _ i _ s _ rfl rfl rfl; rfl
  · intro cfg i s log
    exact nodeStepEff_spec cfg
      (popStep (rateStep (colStep (compactionStep cfg.compaction_strategy
        (keyspaceStep cfg.keyspace_name i (warmupStep s)))))) log

/-- Claim C9 witness: determinism and sink-independence at a concrete
input. -/
theorem claim_C9_witness :
    create_stress_cmd cfgBar 0 idemIn = create_stress_cmd cfgBar 0 idemIn ∧
    (create_stress_cmd_io cfgBar 0 idemIn []).1 = create_stress_cmd cfgBar 0 idemIn :=
  ⟨claim_C9.1 cfgBar cfgBar 0 0 idemIn idemIn rfl rfl rfl,
   (claim_C9.2 cfgBar 0 idemIn []).1⟩

/-- Claim C10.  For every command string not containing the
space-delimited ` -schema ` token, the keyspace-injection and
compaction-injection rules leave the command unchanged, whatever
explicit keyspace name or compaction strategy is configured: both
injections act only by replacing an existing ` -schema ` occurrence. -/
theorem claim_C10 (name strat : Str) (i : Nat) (s : Str)
    (h : occursIn " -schema ".data s = false) :
    keyspaceStep name i s = s ∧ compactionStep strat s = s := by
  constructor
  · unfold keyspaceStep
    split_ifs with h1 h2
    · exact replaceAll_no_occur h
    · rfl
    · exact replaceAll_no_occur h
  · unfold compactionStep
    split_ifs with h1
    · exact replaceAll_no_occur h
    · rfl

/-- Claim C10 witness: a command whose `-schema` flag lacks the trailing
space is untouched by both injections even with a keyspace name and a
compaction strategy configured. -/
theorem claim_C10_witness :
    keyspaceStep "bar".data 0 "cql-stress-cassandra-stress write -schema".data =
      "cql-stress-cassandra-stress write -schema".data ∧
    compactionStep "STCS".data "cql-stress-cassandra-stress write -schema".data =
      "cql-stress-cassandra-stress write -schema".data :=
  claim_C10 "bar".data "STCS".data 0 _ (by decide)

end CqlStress
